import Mathlib

set_option linter.unusedVariables false

/-!
Verification of the pydantic core validation engine (fields.py, types.py)
against its natural-language specification.

The Python source is shallowly embedded:
* `Val` models Python runtime values as handled by the engine
  (None, int, str, list, tuple, set, frozenset, generator, dict).
* `Field` models `pydantic.fields.Field` restricted to the attributes the
  validation engine reads (`shape`, `allow_none`, `pre_validators`,
  `post_validators`, `validators`, `sub_fields`, `key_field`).
* Validator callables `(cls, v, values, field, config) -> value` are modelled
  as `Val → Except Err Val`: the engine passes `values`, `cls`, `self` and
  `model_config` through unchanged on every call, so they are ambient and
  curried away.  A raised ValueError/TypeError/AssertionError is `.error`;
  any other exception class propagates fatally and is out of scope.
* Error kinds from errors.py are the `Err` inductive; `ErrorWrapper` and
  the nested error lists built by the engine are `ErrorList`.
-/

namespace Pydantic

/-- Payment card brands (types.py `PaymentCardBrand`). -/
inductive Brand where
  | amex
  | mastercard
  | visa
  | other
deriving DecidableEq

/-- Closed taxonomy of validation-error kinds raised by the embedded code
(errors.py).  `custom` stands for user-validator failures. -/
inductive Err where
  | noneNotAllowed
  | listError
  | setError
  | frozenSetError
  | sequenceError
  | tupleError
  | tupleLength (actual expected : Nat)
  | dictError
  | intError
  | strError
  | strMinLength (limit : Nat)
  | strMaxLength (limit : Nat)
  | strRegex
  | numberGt (limit : Int)
  | numberGe (limit : Int)
  | numberLt (limit : Int)
  | numberLe (limit : Int)
  | numberMultiple (multipleOf : Int)
  | notDigit
  | luhn
  | brandLength (brand : Brand) (requiredLength : Nat)
  | decimalNotFinite
  | decimalMaxDigits (maxDigits : Nat)
  | decimalMaxPlaces (decimalPlaces : Nat)
  | decimalWholeDigits (wholeDigits : Int)
  | custom (tag : Nat)
deriving DecidableEq

/-- Python runtime values as seen by the field validation engine. -/
inductive Val where
  | none
  | int (n : Int)
  | str (s : String)
  | list (xs : List Val)
  | tuple (xs : List Val)
  | set (xs : List Val)
  | frozenset (xs : List Val)
  | gen (xs : List Val)
  | dict (entries : List (Val × Val))

/-- Location path segments of an `ErrorWrapper`: string keys, integer
indices, or an arbitrary mapping key used as a segment. -/
inductive Loc where
  | s (s : String)
  | n (n : Nat)
  | v (v : Val)

/-- `ErrorList = Union[Sequence[Any], ErrorWrapper]`: either one wrapped
error or a (possibly nested) collection. -/
inductive ErrorList where
  | wrapper (err : Err) (loc : List Loc)
  | flat (es : List ErrorList)

mutual

/-- Structural equality on embedded Python values (Python `==` on the
value kinds the engine handles). -/
def Val.beq : Val → Val → Bool
  | .none, .none => true
  | .int a, .int b => a == b
  | .str a, .str b => a == b
  | .list as, .list bs => Val.beqList as bs
  | .tuple as, .tuple bs => Val.beqList as bs
  | .set as, .set bs => Val.beqList as bs
  | .frozenset as, .frozenset bs => Val.beqList as bs
  | .gen as, .gen bs => Val.beqList as bs
  | .dict as, .dict bs => Val.beqPairs as bs
  | _, _ => false

def Val.beqList : List Val → List Val → Bool
  | [], [] => true
  | a :: as, b :: bs => Val.beq a b && Val.beqList as bs
  | _, _ => false

def Val.beqPairs : List (Val × Val) → List (Val × Val) → Bool
  | [], [] => true
  | (k, v) :: as, (k', v') :: bs => Val.beq k k' && Val.beq v v' && Val.beqPairs as bs
  | _, _ => false

end

/-- Field shapes (fields.py SHAPE_* constants). -/
inductive Shape where
  | singleton
  | list
  | set
  | mapping
  | tuple
  | tupleEllipsis
  | sequence
  | frozenset
deriving DecidableEq

/-- Embedding of pydantic.fields.Field, restricted to the attributes the
validation engine reads.  In the source `pre_validators`/`post_validators`
are `None` when empty and `sub_fields` is `None` when absent; both tests
(`if self.pre_validators:`, `if self.sub_fields:`) are falsy exactly on the
empty list, so empty lists model them faithfully. -/
inductive Field where
  | mk (shape : Shape) (allowNone : Bool)
       (preValidators : List (Val → Except Err Val))
       (postValidators : List (Val → Except Err Val))
       (validatorsList : List (Val → Except Err Val))
       (subFields : List Field)
       (keyField : Option Field) : Field

def Field.shape : Field → Shape
  | .mk s _ _ _ _ _ _ => s

def Field.allow_none : Field → Bool
  | .mk _ a _ _ _ _ _ => a

def Field.pre_validators : Field → List (Val → Except Err Val)
  | .mk _ _ p _ _ _ _ => p

def Field.post_validators : Field → List (Val → Except Err Val)
  | .mk _ _ _ q _ _ _ => q

def Field.validators : Field → List (Val → Except Err Val)
  | .mk _ _ _ _ w _ _ => w

def Field.sub_fields : Field → List Field
  | .mk _ _ _ _ _ sf _ => sf

def Field.key_field : Field → Option Field
  | .mk _ _ _ _ _ _ kf => kf

theorem Field.sizeOf_sub_fields_lt (f : Field) : sizeOf f.sub_fields < sizeOf f := by
  cases f with
  | mk s a p q w sf kf =>
    simp [Field.sub_fields]
    omega

theorem Field.sizeOf_key_field_lt (f kf : Field) (h : f.key_field = some kf) :
    sizeOf kf < sizeOf f := by
  cases f with
  | mk s a p q w sf kfo =>
    cases kfo with
    | none => simp [Field.key_field] at h
    | some k =>
      simp [Field.key_field] at h
      subst h
      simp
      omega

/-- Field._apply_validators (fields.py 468-476): run the chain in order,
each validator may transform the value; the first raising validator
short-circuits, wrapped as one error at the current location. -/
def apply_validators (vs : List (Val → Except Err Val)) (v : Val) (loc : List Loc) :
    Val × Option ErrorList :=
  match vs with
  | [] => (v, Option.none)
  | g :: gs =>
    match g v with
    | .ok v2 => apply_validators gs v2 loc
    | .error e => (v, some (.wrapper e loc))

/-- Modelled from the spec: `sequence_like` (pydantic/utils.py, which is not
under src/) accepts exactly the iterable container inputs of the sequence
shapes — list, tuple, set, frozenset and generators; strings, mappings and
scalars are rejected ("reject non-iterable-non-string input").  Returns the
iterated elements. -/
def Val.elems : Val → Option (List Val)
  | .list xs => some xs
  | .tuple xs => some xs
  | .set xs => some xs
  | .frozenset xs => some xs
  | .gen xs => some xs
  | _ => Option.none

def sequence_like (v : Val) : Bool := v.elems.isSome

/-- Modelled from the spec: `dict_validator` (pydantic/validators.py, not
under src/) — "reject non-mapping-coercible input" with a TypeError. -/
def dict_validator : Val → Except Err (List (Val × Val))
  | .dict es => .ok es
  | _ => .error .dictError

/-- Python dict assignment `result[k] = v`: replace an existing key in
place, else append the new entry. -/
def dictInsert (es : List (Val × Val)) (k v : Val) : List (Val × Val) :=
  match es with
  | [] => [(k, v)]
  | (k', v') :: rest =>
    if Val.beq k' k then (k, v) :: rest else (k', v') :: dictInsert rest k v

mutual

/-- Field.validate (fields.py 310-341): pre-validators, None handling,
shape dispatch, then post-validators when no error occurred. -/
def Field.validate (f : Field) (v : Val) (loc : List Loc) : Val × Option ErrorList :=
  match apply_validators f.pre_validators v loc with
  | (v1, some e) => (v1, some e)
  | (v1, Option.none) =>
    match v1 with
    | Val.none =>
      if f.allow_none then
        if f.post_validators.isEmpty then (Val.none, Option.none)
        else apply_validators f.post_validators Val.none loc
      else (Val.none, some (.wrapper .noneNotAllowed loc))
    | v2 =>
      let r :=
        match f.shape with
        | .singleton => Field.validate_singleton f v2 loc
        | .mapping => Field.validate_mapping f v2 loc
        | .tuple => Field.validate_tuple f v2 loc
        | _ => Field.validate_sequence_like f v2 loc
      match r with
      | (v3, some e) => (v3, some e)
      | (v3, Option.none) =>
        if f.post_validators.isEmpty then (v3, Option.none)
        else apply_validators f.post_validators v3 loc
termination_by (sizeOf f, 3, 0)

/-- Field._validate_singleton (fields.py 453-466): with sub-fields, try
each sub-field's full validate in order; otherwise apply the own chain. -/
def Field.validate_singleton (f : Field) (v : Val) (loc : List Loc) : Val × Option ErrorList :=
  if f.sub_fields.isEmpty then apply_validators f.validators v loc
  else
    have hlt : sizeOf f.sub_fields < sizeOf f := Field.sizeOf_sub_fields_lt f
    match Field.validate_each_sub_field f.sub_fields v loc with
    | .ok value => (value, Option.none)
    | .error es => (v, some (.flat es))
termination_by (sizeOf f, 0, 0)

/-- The sub-field loop of _validate_singleton: the first success wins; if
every sub-field fails, all their errors are collected in declared order. -/
def Field.validate_each_sub_field (subs : List Field) (v : Val) (loc : List Loc) :
    Except (List ErrorList) Val :=
  match subs with
  | [] => .error []
  | s :: rest =>
    match Field.validate s v loc with
    | (value, Option.none) => .ok value
    | (_, some e) =>
      match Field.validate_each_sub_field rest v loc with
      | .ok value => .ok value
      | .error es => .error (e :: es)
termination_by (sizeOf subs, 3, 0)

/-- Field._validate_sequence_like (fields.py 343-392): reject non-sequence
input with a shape-specific error; validate every element; on any element
error return the original input with all collected errors; on success
reassemble into the shape's target container kind (the generic sequence
shape preserves the input's concrete kind). -/
def Field.validate_sequence_like (f : Field) (v : Val) (loc : List Loc) : Val × Option ErrorList :=
  match Val.elems v with
  | Option.none =>
    let e : Err :=
      match f.shape with
      | .list => .listError
      | .set => .setError
      | .frozenset => .frozenSetError
      | _ => .sequenceError
    (v, some (.wrapper e loc))
  | some xs =>
    match Field.validate_elements f xs 0 loc with
    | (result, []) =>
      let converted : Val :=
        match f.shape with
        | .set => .set result
        | .frozenset => .frozenset result
        | .tupleEllipsis => .tuple result
        | .sequence =>
          match v with
          | .tuple _ => .tuple result
          | .set _ => .set result
          | .gen _ => .gen result
          | _ => .list result
        | _ => .list result
      (converted, Option.none)
    | (_, e :: es) => (v, some (.flat (e :: es)))
termination_by (sizeOf f, 2, 0)

/-- The element loop of _validate_sequence_like: each element is validated
by `_validate_singleton` at location `loc + [index]`; successes and errors
are collected separately and every element is attempted. -/
def Field.validate_elements (f : Field) (elems : List Val) (i : Nat) (loc : List Loc) :
    List Val × List ErrorList :=
  match elems with
  | [] => ([], [])
  | x :: rest =>
    match Field.validate_singleton f x (loc ++ [Loc.n i]) with
    | (r, Option.none) =>
      let p := Field.validate_elements f rest (i + 1) loc
      (r :: p.1, p.2)
    | (_, some e) =>
      let p := Field.validate_elements f rest (i + 1) loc
      (p.1, e :: p.2)
termination_by (sizeOf f, 1, sizeOf elems)

/-- Field._validate_tuple (fields.py 394-422): reject non-sequence input or
a length mismatch, then validate position-wise against the sub-fields. -/
def Field.validate_tuple (f : Field) (v : Val) (loc : List Loc) : Val × Option ErrorList :=
  match Val.elems v with
  | Option.none => (v, some (.wrapper .tupleError loc))
  | some xs =>
    if xs.length ≠ f.sub_fields.length then
      (v, some (.wrapper (.tupleLength xs.length f.sub_fields.length) loc))
    else
      have hlt : sizeOf f.sub_fields < sizeOf f := Field.sizeOf_sub_fields_lt f
      match Field.validate_tuple_elements f.sub_fields xs 0 loc with
      | (result, []) => (.tuple result, Option.none)
      | (_, e :: es) => (v, some (.flat (e :: es)))
termination_by (sizeOf f, 2, 0)

/-- The position loop of _validate_tuple (`zip(v, self.sub_fields)`). -/
def Field.validate_tuple_elements (subs : List Field) (vals : List Val) (i : Nat)
    (loc : List Loc) : List Val × List ErrorList :=
  match subs, vals with
  | s :: ss, x :: xs =>
    match Field.validate s x (loc ++ [Loc.n i]) with
    | (r, Option.none) =>
      let p := Field.validate_tuple_elements ss xs (i + 1) loc
      (r :: p.1, p.2)
    | (_, some e) =>
      let p := Field.validate_tuple_elements ss xs (i + 1) loc
      (p.1, e :: p.2)
  | _, _ => ([], [])
termination_by (sizeOf subs, 3, 0)

/-- Field._validate_mapping (fields.py 424-451): coerce to a mapping or
fail with one error; validate each entry's key and value; collect all
errors or return a freshly built dict of the validated entries. -/
def Field.validate_mapping (f : Field) (v : Val) (loc : List Loc) : Val × Option ErrorList :=
  match dict_validator v with
  | .error e => (v, some (.wrapper e loc))
  | .ok entries =>
    match Field.validate_entries f entries loc with
    | (pairs, []) =>
      (.dict (pairs.foldl (fun acc kv => dictInsert acc kv.1 kv.2) []), Option.none)
    | (_, e :: es) => (v, some (.flat (e :: es)))
termination_by (sizeOf f, 2, 0)

/-- The entry loop of _validate_mapping: the key is validated against
`key_field` at `loc + ['__key__']`; on key success the value is validated
at `loc + [original key]`; a failing key or value skips the entry and its
error is collected; every entry is attempted. -/
def Field.validate_entries (f : Field) (entries : List (Val × Val)) (loc : List Loc) :
    List (Val × Val) × List ErrorList :=
  match entries with
  | [] => ([], [])
  | (k, v) :: rest =>
    match hk : f.key_field with
    | Option.none =>
      -- a mapping-shaped Field always carries a key_field; unreachable there
      Field.validate_entries f rest loc
    | some kf =>
      have hlt : sizeOf kf < sizeOf f := Field.sizeOf_key_field_lt f kf hk
      match Field.validate kf k (loc ++ [Loc.s "__key__"]) with
      | (_, some ke) =>
        let p := Field.validate_entries f rest loc
        (p.1, ke :: p.2)
      | (kr, Option.none) =>
        match Field.validate_singleton f v (loc ++ [Loc.v k]) with
        | (_, some ve) =>
          let p := Field.validate_entries f rest loc
          (p.1, ve :: p.2)
        | (vr, Option.none) =>
          let p := Field.validate_entries f rest loc
          ((kr, vr) :: p.1, p.2)
termination_by (sizeOf f, 1, sizeOf entries)


end

/-! ### The union/sub-field loop of _validate_singleton (claim C1) -/

theorem validate_each_sub_field_spec (subs : List Field) (v : Val) (loc : List Loc) :
    (∃ pre s post, subs = pre ++ s :: post ∧
       (∀ s' ∈ pre, (Field.validate s' v loc).2 ≠ Option.none) ∧
       (Field.validate s v loc).2 = Option.none ∧
       Field.validate_each_sub_field subs v loc = .ok (Field.validate s v loc).1)
  ∨ ((∀ s ∈ subs, (Field.validate s v loc).2 ≠ Option.none) ∧
     Field.validate_each_sub_field subs v loc
       = .error (subs.filterMap (fun s => (Field.validate s v loc).2))) := by
  induction subs with
  | nil =>
    right
    constructor
    · intro s hs
      simp at hs
    · simp [Field.validate_each_sub_field]
  | cons s rest ih =>
    rcases hv : Field.validate s v loc with ⟨value, err⟩
    cases err with
    | none =>
      left
      refine ⟨[], s, rest, rfl, by simp, by rw [hv], ?_⟩
      simp [Field.validate_each_sub_field, hv]
    | some e =>
      rcases ih with ⟨pre, s', post, heq, hpre, hs', hrun⟩ | ⟨hall, hrun⟩
      · left
        refine ⟨s :: pre, s', post, by rw [heq]; simp, ?_, hs', ?_⟩
        · intro s'' hs''
          rcases List.mem_cons.mp hs'' with h1 | h2
          · subst h1
            rw [hv]
            simp
          · exact hpre _ h2
        · simp only [Field.validate_each_sub_field, hv, hrun]
      · right
        constructor
        · intro s'' hs''
          rcases List.mem_cons.mp hs'' with h1 | h2
          · subst h1
            rw [hv]
            simp
          · exact hall _ h2
        · simp only [Field.validate_each_sub_field, hv, hrun, List.filterMap_cons]

/-- C1: for every singleton-shaped Field with non-empty sub_fields (a union
field) and every input value, `_validate_singleton` tries each sub-field's
full `validate` in declared order and returns the first sub-field success
(its coerced value, no errors); if every sub-field fails it returns the
input together with the collected list of all sub-fields' errors.  -/
theorem c1_union_first_success_or_all_errors (f : Field) (v : Val) (loc : List Loc)
    (hshape : f.shape = Shape.singleton) (hsub : f.sub_fields ≠ []) :
    (∃ pre s post, f.sub_fields = pre ++ s :: post ∧
       (∀ s' ∈ pre, (Field.validate s' v loc).2 ≠ Option.none) ∧
       (Field.validate s v loc).2 = Option.none ∧
       Field.validate_singleton f v loc = ((Field.validate s v loc).1, Option.none))
  ∨ ((∀ s ∈ f.sub_fields, (Field.validate s v loc).2 ≠ Option.none) ∧
     Field.validate_singleton f v loc
       = (v, some (.flat (f.sub_fields.filterMap (fun s => (Field.validate s v loc).2))))) := by
  have hne : f.sub_fields.isEmpty = false := by
    cases hfs : f.sub_fields with
    | nil => exact absurd hfs hsub
    | cons a l => simp [hfs]
  rcases validate_each_sub_field_spec f.sub_fields v loc with
    ⟨pre, s, post, heq, hpre, hs, hloop⟩ | ⟨hall, hloop⟩
  · left
    refine ⟨pre, s, post, heq, hpre, hs, ?_⟩
    simp only [Field.validate_singleton, hne, Bool.false_eq_true, if_false, hloop]
  · right
    refine ⟨hall, ?_⟩
    simp only [Field.validate_singleton, hne, Bool.false_eq_true, if_false, hloop]

/-! ### The element loop of _validate_sequence_like (claims C2, C8) -/

/-- Per-index outcomes of the element loop: element `j` (0-based) is
validated by `_validate_singleton` at location `loc + [i + j]`. -/
def elem_outcomes (f : Field) (loc : List Loc) (elems : List Val) (i : Nat) :
    List (Val × Option ErrorList) :=
  match elems with
  | [] => []
  | x :: rest =>
    Field.validate_singleton f x (loc ++ [Loc.n i]) :: elem_outcomes f loc rest (i + 1)

theorem validate_elements_eq (f : Field) (loc : List Loc) (elems : List Val) (i : Nat) :
    Field.validate_elements f elems i loc =
      ((elem_outcomes f loc elems i).filterMap
         (fun r => match r.2 with | Option.none => some r.1 | some _ => Option.none),
       (elem_outcomes f loc elems i).filterMap (fun r => r.2)) := by
  induction elems generalizing i with
  | nil => simp [Field.validate_elements, elem_outcomes]
  | cons x rest ih =>
    rcases hv : Field.validate_singleton f x (loc ++ [Loc.n i]) with ⟨r, err⟩
    cases err with
    | none =>
      simp only [Field.validate_elements, elem_outcomes, hv, ih, List.filterMap_cons]
    | some e =>
      simp only [Field.validate_elements, elem_outcomes, hv, ih, List.filterMap_cons]

theorem elem_outcomes_length (f : Field) (loc : List Loc) (elems : List Val) (i : Nat) :
    (elem_outcomes f loc elems i).length = elems.length := by
  induction elems generalizing i with
  | nil => simp [elem_outcomes]
  | cons x rest ih => simp [elem_outcomes, ih]

theorem elem_outcomes_getD (f : Field) (loc : List Loc) (elems : List Val) (i j : Nat)
    (hj : j < elems.length) :
    (elem_outcomes f loc elems i).getD j (Val.none, Option.none)
      = Field.validate_singleton f (elems.getD j Val.none) (loc ++ [Loc.n (i + j)]) := by
  induction elems generalizing i j with
  | nil => simp at hj
  | cons x rest ih =>
    cases j with
    | zero => simp [elem_outcomes]
    | succ j' =>
      simp only [elem_outcomes, List.getD_cons_succ]
      rw [ih (i + 1) j' (by simp only [List.length_cons] at hj; omega)]
      have harith : i + 1 + j' = i + (j' + 1) := by omega
      rw [harith]

theorem filterMap_fst_of_all_none (l : List (Val × Option ErrorList))
    (h : ∀ r ∈ l, r.2 = Option.none) :
    l.filterMap (fun r => match r.2 with | Option.none => some r.1 | some _ => Option.none)
      = l.map (fun r => r.1) := by
  induction l with
  | nil => simp
  | cons r rest ih =>
    have hr : r.2 = Option.none := h r (by simp)
    simp only [List.filterMap_cons, List.map_cons, hr]
    rw [ih (fun r' hr' => h r' (by simp [hr']))]

/-- C2: for every list/set/frozenset/sequence-shaped Field and every
sequence-like input, validation attempts every element (no short-circuit);
each failing element at index `i` contributes one error entry produced at
location `loc + [i]`; when at least one element fails, the returned value
is the original input container unmodified together with all collected
element errors in index order.  -/
theorem c2_sequence_attempts_all_elements (f : Field) (v : Val) (loc : List Loc)
    (xs : List Val)
    (hshape : f.shape = Shape.list ∨ f.shape = Shape.set ∨ f.shape = Shape.frozenset ∨
      f.shape = Shape.sequence)
    (helems : v.elems = some xs)
    (hfail : ∃ r ∈ elem_outcomes f loc xs 0, r.2 ≠ Option.none) :
    Field.validate_sequence_like f v loc
      = (v, some (.flat ((elem_outcomes f loc xs 0).filterMap (fun r => r.2))))
    ∧ (elem_outcomes f loc xs 0).length = xs.length
    ∧ ∀ j : Nat, j < xs.length →
        (elem_outcomes f loc xs 0).getD j (Val.none, Option.none)
          = Field.validate_singleton f (xs.getD j Val.none) (loc ++ [Loc.n j]) := by
  refine ⟨?_, elem_outcomes_length f loc xs 0,
    fun j hj => by simpa using elem_outcomes_getD f loc xs 0 j hj⟩
  have herr : (elem_outcomes f loc xs 0).filterMap (fun r => r.2) ≠ [] := by
    rcases hfail with ⟨r, hr, hne⟩
    intro hnil
    rw [List.filterMap_eq_nil_iff] at hnil
    exact hne (hnil r hr)
  rcases herrs : (elem_outcomes f loc xs 0).filterMap (fun r => r.2) with _ | ⟨e, es⟩
  · exact absurd herrs herr
  simp only [Field.validate_sequence_like, helems, validate_elements_eq, herrs]

/-- C8: for every generic sequence-shaped Field, when every element
validates successfully the result preserves the original input's concrete
container kind: tuple input yields a tuple, set input yields a set,
generator input stays lazy, and any other sequence input (list, frozenset)
yields a list of the validated elements.  -/
theorem c8_sequence_preserves_container_kind (f : Field) (v : Val) (loc : List Loc)
    (xs : List Val)
    (hshape : f.shape = Shape.sequence)
    (helems : v.elems = some xs)
    (hok : ∀ r ∈ elem_outcomes f loc xs 0, r.2 = Option.none) :
    (∀ ys, v = Val.tuple ys → Field.validate_sequence_like f v loc
       = (Val.tuple ((elem_outcomes f loc xs 0).map (fun r => r.1)), Option.none))
  ∧ (∀ ys, v = Val.set ys → Field.validate_sequence_like f v loc
       = (Val.set ((elem_outcomes f loc xs 0).map (fun r => r.1)), Option.none))
  ∧ (∀ ys, v = Val.gen ys → Field.validate_sequence_like f v loc
       = (Val.gen ((elem_outcomes f loc xs 0).map (fun r => r.1)), Option.none))
  ∧ (∀ ys, v = Val.list ys → Field.validate_sequence_like f v loc
       = (Val.list ((elem_outcomes f loc xs 0).map (fun r => r.1)), Option.none))
  ∧ (∀ ys, v = Val.frozenset ys → Field.validate_sequence_like f v loc
       = (Val.list ((elem_outcomes f loc xs 0).map (fun r => r.1)), Option.none)) := by
  have herrs : (elem_outcomes f loc xs 0).filterMap (fun r => r.2) = [] :=
    List.filterMap_eq_nil_iff.mpr hok
  have hres := filterMap_fst_of_all_none (elem_outcomes f loc xs 0) hok
  refine ⟨?_, ?_, ?_, ?_, ?_⟩ <;>
    (intro ys hv
     subst hv
     simp only [Field.validate_sequence_like, helems, validate_elements_eq, herrs, hres,
       hshape])

/-! ### The entry loop of _validate_mapping (claim C3) -/

/-- Per-entry outcome of the mapping loop: the key is validated first at
`loc + ['__key__']`; only on key success is the value validated at
`loc + [original key]`. -/
def entry_outcome (f kf : Field) (loc : List Loc) (kv : Val × Val) :
    Except ErrorList (Val × Val) :=
  match Field.validate kf kv.1 (loc ++ [Loc.s "__key__"]) with
  | (_, some ke) => .error ke
  | (kr, Option.none) =>
    match Field.validate_singleton f kv.2 (loc ++ [Loc.v kv.1]) with
    | (_, some ve) => .error ve
    | (vr, Option.none) => .ok (kr, vr)

def ex_ok : Except ErrorList (Val × Val) → Option (Val × Val)
  | .ok p => some p
  | .error _ => Option.none

def ex_err : Except ErrorList (Val × Val) → Option ErrorList
  | .error e => some e
  | .ok _ => Option.none

theorem validate_entries_eq (f kf : Field) (hk : f.key_field = some kf)
    (entries : List (Val × Val)) (loc : List Loc) :
    Field.validate_entries f entries loc =
      (entries.filterMap (fun kv => ex_ok (entry_outcome f kf loc kv)),
       entries.filterMap (fun kv => ex_err (entry_outcome f kf loc kv))) := by
  induction entries with
  | nil => simp [Field.validate_entries]
  | cons kv rest ih =>
    rcases kv with ⟨k, v⟩
    rw [Field.validate_entries]
    split
    · next hk0 =>
      rw [hk0] at hk
      exact absurd hk (by simp)
    · next kf' hk' =>
      have hkf : kf' = kf := by
        rw [hk'] at hk
        injection hk
      rcases hkv : Field.validate kf k (loc ++ [Loc.s "__key__"]) with ⟨kr, kerr⟩
      cases kerr with
      | some ke =>
        have hout : entry_outcome f kf loc (k, v) = .error ke := by
          simp [entry_outcome, hkv]
        simp only [hkf, hkv, ih, List.filterMap_cons, hout, ex_ok, ex_err]
      | none =>
        rcases hvv : Field.validate_singleton f v (loc ++ [Loc.v k]) with ⟨vr, verr⟩
        cases verr with
        | some ve =>
          have hout : entry_outcome f kf loc (k, v) = .error ve := by
            simp [entry_outcome, hkv, hvv]
          simp only [hkf, hkv, hvv, ih, List.filterMap_cons, hout, ex_ok, ex_err]
        | none =>
          have hout : entry_outcome f kf loc (k, v) = .ok (kr, vr) := by
            simp [entry_outcome, hkv, hvv]
          simp only [hkf, hkv, hvv, ih, List.filterMap_cons, hout, ex_ok, ex_err]

/-- C3: for every mapping-shaped Field (carrying a key_field):
non-mapping-coercible input is rejected with a single error; each entry's
key is validated against key_field with key errors at `loc + ['__key__']`
and, on key success, the value is validated against the element machinery
with value errors at `loc + [key]`; all entries are attempted and all their
errors collected in order; with no errors a freshly built mapping of the
validated keys and values is returned.  -/
theorem c3_mapping_entry_validation (f kf : Field) (loc : List Loc)
    (hk : f.key_field = some kf) :
    (∀ v : Val, (∀ es : List (Val × Val), v ≠ Val.dict es) →
       Field.validate_mapping f v loc = (v, some (.wrapper Err.dictError loc)))
  ∧ (∀ es : List (Val × Val),
       Field.validate_mapping f (Val.dict es) loc =
         (match es.filterMap (fun kv => ex_err (entry_outcome f kf loc kv)) with
          | [] =>
            (Val.dict (((es.filterMap (fun kv => ex_ok (entry_outcome f kf loc kv)))).foldl
               (fun acc kv => dictInsert acc kv.1 kv.2) []), Option.none)
          | e :: es' => (Val.dict es, some (.flat (e :: es'))))) := by
  constructor
  · intro v hv
    have hdv : dict_validator v = .error .dictError := by
      cases v with
      | dict es => exact absurd rfl (hv es)
      | none => rfl
      | int n => rfl
      | str s => rfl
      | list xs => rfl
      | tuple xs => rfl
      | set xs => rfl
      | frozenset xs => rfl
      | gen xs => rfl
    simp only [Field.validate_mapping, hdv]
  · intro es
    have hdv : dict_validator (Val.dict es) = .ok es := rfl
    rcases herrs : es.filterMap (fun kv => ex_err (entry_outcome f kf loc kv)) with _ | ⟨e, es'⟩
    · simp only [Field.validate_mapping, hdv, validate_entries_eq f kf hk, herrs]
    · simp only [Field.validate_mapping, hdv, validate_entries_eq f kf hk, herrs]

/-! ### allow_none derivation in prepare and None handling (claim C10) -/

/-- Embedding of the allow_none derivation in Field.prepare (fields.py
161-181): allow_none starts False; lines 177-178 set it when the field is
not required and its default is None; _type_analysis may additionally set
it when the type is a union containing None (`typeAllowsNone`); nothing
ever resets it. -/
def prepared_allow_none (required : Bool) (defaultIsNone : Bool) (typeAllowsNone : Bool) :
    Bool :=
  (!required && defaultIsNone) || typeAllowsNone

/-- C10: a Field prepared with required=False and default=None gets
allow_none=True regardless of what the declared type contributes, so
`validate(None, ...)` (with no pre-validators) returns `(None, None)` —
running the post-validators on None when there are any — instead of the
null-not-allowed error.  -/
theorem c10_allow_none_when_not_required_default_none (typeAllowsNone : Bool) (sh : Shape)
    (post vs : List (Val → Except Err Val)) (subs : List Field) (kf : Option Field)
    (loc : List Loc) :
    prepared_allow_none false true typeAllowsNone = true
  ∧ Field.validate (Field.mk sh (prepared_allow_none false true typeAllowsNone) [] post vs subs kf)
      Val.none loc
      = (if post.isEmpty then (Val.none, Option.none)
         else apply_validators post Val.none loc) := by
  constructor
  · simp [prepared_allow_none]
  · simp only [Field.validate, Field.pre_validators, apply_validators, Field.allow_none,
      prepared_allow_none, Field.post_validators]
    simp

/-! ### PaymentCardNumber: Luhn check and brand length (claims C4, C5) -/

/-- Transcription of PaymentCardNumber.validate_luhn_check_digit
(types.py 558-574) on the card number's digit list (`validate_digits`
guarantees all-digit and the length validator guarantees 12-19 digits
upstream).  The source doubles the alternate digits and adds them without
reducing doubled values greater than 9. -/
def luhn_sum_code (ds : List Nat) : Nat :=
  (List.range (ds.length - 1)).foldl
    (fun s i => s + (if i % 2 == ds.length % 2 then 2 * ds.getD i 0 else ds.getD i 0))
    (ds.getLast?.getD 0)

def validate_luhn_check_digit (ds : List Nat) : Except Err (List Nat) :=
  if luhn_sum_code ds % 10 == 0 then .ok ds else .error .luhn

/-- Doubling step of the Luhn algorithm as the spec words it: a doubled
value greater than 9 is replaced by the sum of its digits. -/
def luhn_double (d : Nat) : Nat :=
  if 2 * d > 9 then (2 * d) / 10 + (2 * d) % 10 else 2 * d

/-- The Luhn checksum as the spec words it: alternate-digit doubling
starting from the rightmost digit excluding the check digit itself,
digit-sum reduction of doubled values over 9, plus the remaining digits
and the check digit. -/
def luhn_sum_claim (ds : List Nat) : Nat :=
  match ds.reverse with
  | [] => 0
  | check :: rest =>
    check + (rest.mapIdx (fun j d => if j % 2 == 0 then luhn_double d else d)).sum

/-- C4 (code bug): the source omits the digit-sum reduction of doubled
values, so the card number 5000000000000009 — whose Luhn checksum as the
spec defines it is 0 mod 10 — is rejected with the Luhn error, while
4111111111111111 (no doubled digit exceeds 9) is accepted by both.  -/
theorem c4_luhn_code_rejects_valid_checksum :
    luhn_sum_claim [5, 0, 0, 0, 0, 0, 0, 0, 0, 0, 0, 0, 0, 0, 0, 9] % 10 = 0
  ∧ validate_luhn_check_digit [5, 0, 0, 0, 0, 0, 0, 0, 0, 0, 0, 0, 0, 0, 0, 9]
      = .error .luhn
  ∧ validate_luhn_check_digit [4, 1, 1, 1, 1, 1, 1, 1, 1, 1, 1, 1, 1, 1, 1, 1]
      = .ok [4, 1, 1, 1, 1, 1, 1, 1, 1, 1, 1, 1, 1, 1, 1, 1]
  ∧ luhn_sum_claim [4, 1, 1, 1, 1, 1, 1, 1, 1, 1, 1, 1, 1, 1, 1, 1] % 10 = 0 :=
  ⟨by decide, rfl, rfl, by decide⟩

/-- Transcription of `int(card_number[:2])` (types.py 599). -/
def first_two_digits (ds : List Nat) : Nat :=
  match ds with
  | a :: b :: _ => 10 * a + b
  | [a] => a
  | [] => 0

/-- Transcription of PaymentCardNumber._get_brand (types.py 595-605). -/
def get_brand (ds : List Nat) : Brand :=
  if ds.getD 0 0 == 4 then Brand.visa
  else if 51 ≤ first_two_digits ds ∧ first_two_digits ds ≤ 55 then Brand.mastercard
  else if first_two_digits ds == 34 ∨ first_two_digits ds == 37 then Brand.amex
  else Brand.other

/-- Transcription of PaymentCardNumber.validate_length_for_brand
(types.py 576-593).  The source tests
`card_number.brand is (PaymentCardBrand.visa or PaymentCardBrand.mastercard)`;
Python `or` returns its first truthy operand, so the test compares the
brand against visa alone and a mastercard number never reaches any length
check. -/
def validate_length_for_brand (brand : Brand) (length : Nat) : Except Err Nat :=
  if brand = Brand.visa then
    if length = 16 then .ok length else .error (.brandLength brand 16)
  else if brand = Brand.amex then
    if length = 15 then .ok length else .error (.brandLength brand 15)
  else .ok length

/-- C5 (code bug): brand classification matches the claim (first digit 4 is
visa, two-digit 51-55 mastercard, 34/37 amex), and visa/amex lengths are
enforced, but the 13-digit mastercard number 5100000000003 — which passes
the digit and Luhn checks — is accepted with no brand-length error, while
the claim requires mastercard numbers to have length 16.  -/
theorem c5_mastercard_length_never_checked :
    get_brand [5, 1, 0, 0, 0, 0, 0, 0, 0, 0, 0, 0, 3] = Brand.mastercard
  ∧ validate_luhn_check_digit [5, 1, 0, 0, 0, 0, 0, 0, 0, 0, 0, 0, 3]
      = .ok [5, 1, 0, 0, 0, 0, 0, 0, 0, 0, 0, 0, 3]
  ∧ validate_length_for_brand Brand.mastercard 13 = .ok 13
  ∧ validate_length_for_brand Brand.visa 15 = .error (.brandLength Brand.visa 16)
  ∧ validate_length_for_brand Brand.visa 16 = .ok 16
  ∧ validate_length_for_brand Brand.amex 14 = .error (.brandLength Brand.amex 15)
  ∧ validate_length_for_brand Brand.amex 15 = .ok 15
  ∧ get_brand [4, 1, 1, 1, 1, 1, 1, 1, 1, 1, 1, 1, 1, 1, 1, 1] = Brand.visa
  ∧ get_brand [3, 4, 0, 0, 0, 0, 0, 0, 0, 0, 0, 0, 0, 0, 9] = Brand.amex :=
  ⟨rfl, rfl, rfl, rfl, rfl, rfl, rfl, rfl, rfl⟩

/-! ### ConstrainedDecimal digit layout (claims C6, C7) -/

/-- Exponent field of `Decimal.as_tuple()`: an integer for finite values;
the markers 'F' (infinity), 'n' (NaN) and 'N' (sNaN) — all rejected alike
by the source — are collapsed into `nonfinite`. -/
inductive DecExp where
  | fin (e : Int)
  | nonfinite
deriving DecidableEq

/-- Transcription of ConstrainedDecimal.validate (types.py 345-379) on the
digit tuple and exponent of `value.as_tuple()` (the sign is unused by the
source).  The whole-digits comparison is carried out over ℤ because
`max_digits - decimal_places` is a Python int that may be negative. -/
def ConstrainedDecimal.validate (maxDigits decimalPlaces : Option Nat)
    (digitTuple : List Nat) (exp : DecExp) : Except Err (List Nat × DecExp) :=
  match exp with
  | DecExp.nonfinite => .error .decimalNotFinite
  | DecExp.fin e =>
    let dd : Nat × Nat :=
      if 0 ≤ e then (digitTuple.length + e.toNat, 0)
      else if e.natAbs > digitTuple.length then (e.natAbs, e.natAbs)
      else (digitTuple.length, e.natAbs)
    let digits := dd.1
    let decimals := dd.2
    let wholeDigits := digits - decimals
    match maxDigits, decimalPlaces with
    | some md, some dp =>
      if digits > md then .error (.decimalMaxDigits md)
      else if decimals > dp then .error (.decimalMaxPlaces dp)
      else if (wholeDigits : Int) > (md : Int) - (dp : Int) then
        .error (.decimalWholeDigits ((md : Int) - (dp : Int)))
      else .ok (digitTuple, DecExp.fin e)
    | some md, Option.none =>
      if digits > md then .error (.decimalMaxDigits md) else .ok (digitTuple, DecExp.fin e)
    | Option.none, some dp =>
      if decimals > dp then .error (.decimalMaxPlaces dp) else .ok (digitTuple, DecExp.fin e)
    | Option.none, Option.none => .ok (digitTuple, DecExp.fin e)

/-- Significant digits of a finite decimal as the claim words it. -/
def spec_decimal_digits (digitLen : Nat) (e : Int) : Nat :=
  if 0 ≤ e then digitLen + e.toNat
  else if digitLen < e.natAbs then e.natAbs
  else digitLen

/-- Decimal places of a finite decimal as the claim words it. -/
def spec_decimal_decimals (digitLen : Nat) (e : Int) : Nat :=
  if 0 ≤ e then 0 else e.natAbs

theorem spec_decimal_decimals_le (digitLen : Nat) (e : Int) :
    spec_decimal_decimals digitLen e ≤ spec_decimal_digits digitLen e := by
  unfold spec_decimal_digits spec_decimal_decimals
  split
  · omega
  · split <;> omega

theorem validate_fin_eq (maxDigits decimalPlaces : Option Nat) (dt : List Nat) (e : Int) :
    ConstrainedDecimal.validate maxDigits decimalPlaces dt (DecExp.fin e) =
      (let digits := spec_decimal_digits dt.length e
       let decimals := spec_decimal_decimals dt.length e
       match maxDigits, decimalPlaces with
       | some md, some dp =>
         if digits > md then .error (.decimalMaxDigits md)
         else if decimals > dp then .error (.decimalMaxPlaces dp)
         else if (digits : Int) - (decimals : Int) > (md : Int) - (dp : Int) then
           .error (.decimalWholeDigits ((md : Int) - (dp : Int)))
         else .ok (dt, DecExp.fin e)
       | some md, Option.none =>
         if digits > md then .error (.decimalMaxDigits md) else .ok (dt, DecExp.fin e)
       | Option.none, some dp =>
         if decimals > dp then .error (.decimalMaxPlaces dp) else .ok (dt, DecExp.fin e)
       | Option.none, Option.none => .ok (dt, DecExp.fin e)) := by
  have hdig : (if 0 ≤ e then (dt.length + e.toNat, 0)
      else if e.natAbs > dt.length then (e.natAbs, e.natAbs)
      else (dt.length, e.natAbs))
      = (spec_decimal_digits dt.length e, spec_decimal_decimals dt.length e) := by
    unfold spec_decimal_digits spec_decimal_decimals
    split
    · rfl
    · split <;> rfl
  have hle := spec_decimal_decimals_le dt.length e
  simp only [ConstrainedDecimal.validate, hdig]
  have hw : ((spec_decimal_digits dt.length e - spec_decimal_decimals dt.length e : Nat) : Int)
      = (spec_decimal_digits dt.length e : Int) - (spec_decimal_decimals dt.length e : Int) := by
    omega
  rw [hw]

/-- C6: for every finite decimal (digit tuple and exponent),
ConstrainedDecimal.validate computes digits/decimals exactly as the claim
states (non-negative exponent: digits = stored count + exponent, decimals
= 0; negative exponent of magnitude over the stored count: digits =
decimals = magnitude; otherwise digits = stored count, decimals =
magnitude), rejects infinite/NaN outright, and accepts iff max_digits ≥
digits, decimal_places ≥ decimals and (max_digits - decimal_places) ≥
(digits - decimals), each violation raising its own distinct error kind
in that check order.  -/
theorem c6_decimal_digit_layout (maxDigits decimalPlaces : Option Nat) (dt : List Nat) (e : Int) :
    ConstrainedDecimal.validate maxDigits decimalPlaces dt DecExp.nonfinite
        = .error .decimalNotFinite
  ∧ (ConstrainedDecimal.validate maxDigits decimalPlaces dt (DecExp.fin e)
        = .ok (dt, DecExp.fin e)
      ↔ (∀ md, maxDigits = some md → spec_decimal_digits dt.length e ≤ md)
        ∧ (∀ dp, decimalPlaces = some dp → spec_decimal_decimals dt.length e ≤ dp)
        ∧ (∀ md dp, maxDigits = some md → decimalPlaces = some dp →
            (spec_decimal_digits dt.length e : Int) - spec_decimal_decimals dt.length e
              ≤ (md : Int) - dp))
  ∧ (∀ md, maxDigits = some md → spec_decimal_digits dt.length e > md →
       ConstrainedDecimal.validate maxDigits decimalPlaces dt (DecExp.fin e)
         = .error (.decimalMaxDigits md))
  ∧ (∀ dp, decimalPlaces = some dp →
       (∀ md, maxDigits = some md → spec_decimal_digits dt.length e ≤ md) →
       spec_decimal_decimals dt.length e > dp →
       ConstrainedDecimal.validate maxDigits decimalPlaces dt (DecExp.fin e)
         = .error (.decimalMaxPlaces dp))
  ∧ (∀ md dp, maxDigits = some md → decimalPlaces = some dp →
       spec_decimal_digits dt.length e ≤ md → spec_decimal_decimals dt.length e ≤ dp →
       (spec_decimal_digits dt.length e : Int) - spec_decimal_decimals dt.length e
           > (md : Int) - dp →
       ConstrainedDecimal.validate maxDigits decimalPlaces dt (DecExp.fin e)
         = .error (.decimalWholeDigits ((md : Int) - dp))) := by
  have hle := spec_decimal_decimals_le dt.length e
  refine ⟨rfl, ?_, ?_, ?_, ?_⟩
  · rw [validate_fin_eq]
    rcases maxDigits with _ | md <;> rcases decimalPlaces with _ | dp <;>
      simp only [] <;> (try split_ifs) <;> (try simp) <;> omega
  · intro md hmd hgt
    subst hmd
    rw [validate_fin_eq]
    rcases decimalPlaces with _ | dp <;> simp only [] <;> split_ifs <;>
      first | rfl | (exfalso; omega)
  · intro dp hdp hmdok hgt
    subst hdp
    rw [validate_fin_eq]
    rcases maxDigits with _ | md
    · simp only []
      split_ifs <;> first | rfl | (exfalso; omega)
    · have hmd := hmdok md rfl
      simp only []
      split_ifs <;> first | rfl | (exfalso; omega)
  · intro md dp hmd hdp h1 h2 h3
    subst hmd
    subst hdp
    rw [validate_fin_eq]
    simp only []
    split_ifs <;> first | rfl | (exfalso; omega)

/-- C7 counterexample: Decimal('3.14') (digit tuple (3,1,4), exponent -2)
against max_digits=2, decimal_places=2 fails with the max-digits error
kind, not the whole-digits error kind the claim asserts: the max_digits
check (digits = 3 > 2) fires before the whole-digits check is reached.  -/
theorem c7_counterexample_max_digits_error_kind :
    ConstrainedDecimal.validate (some 2) (some 2) [3, 1, 4] (DecExp.fin (-2))
        = .error (.decimalMaxDigits 2)
  ∧ ConstrainedDecimal.validate (some 2) (some 2) [3, 1, 4] (DecExp.fin (-2))
        ≠ .error (.decimalWholeDigits 0) := by
  refine ⟨rfl, ?_⟩
  intro h
  rw [show ConstrainedDecimal.validate (some 2) (some 2) [3, 1, 4] (DecExp.fin (-2))
      = .error (.decimalMaxDigits 2) from rfl] at h
  injection h with h'
  exact absurd h' (by decide)

/-- C7 amended: Decimal('3.14') with max_digits=3, decimal_places=2
succeeds and returns the value; with max_digits=2 (decimal_places=2) it
fails, and the error raised is the max-digits error kind, because the
digits check (3 > 2) precedes the whole-digits check.  -/
theorem c7_amended_decimal_example :
    ConstrainedDecimal.validate (some 3) (some 2) [3, 1, 4] (DecExp.fin (-2))
        = .ok ([3, 1, 4], DecExp.fin (-2))
  ∧ ConstrainedDecimal.validate (some 2) (some 2) [3, 1, 4] (DecExp.fin (-2))
        = .error (.decimalMaxDigits 2) := ⟨rfl, rfl⟩

/-! ### Constrained string / int validator chains (claim C9) -/

theorem dropWhile_dropWhile (p : Char → Bool) (l : List Char) :
    (l.dropWhile p).dropWhile p = l.dropWhile p := by
  induction l with
  | nil => rfl
  | cons x xs ih =>
    by_cases hx : p x
    · simp [List.dropWhile_cons, hx, ih]
    · simp [List.dropWhile_cons, hx]

theorem dropWhile_suffix_of (p : Char → Bool) (l : List Char) :
    ∃ t, t ++ l.dropWhile p = l := by
  induction l with
  | nil => exact ⟨[], rfl⟩
  | cons x xs ih =>
    by_cases hx : p x
    · rcases ih with ⟨t, ht⟩
      refine ⟨x :: t, ?_⟩
      simp [List.dropWhile_cons, hx, ht]
    · exact ⟨[], by simp [List.dropWhile_cons, hx]⟩

theorem dropWhile_eq_self_of_append (p : Char → Bool) (x t : List Char)
    (hy : (x ++ t).dropWhile p = x ++ t) : x.dropWhile p = x := by
  cases x with
  | nil => rfl
  | cons c x' =>
    by_cases hc : p c
    · exfalso
      rw [List.cons_append, List.dropWhile_cons, if_pos hc] at hy
      have hsuf : (x' ++ t).dropWhile p <:+ (x' ++ t) := List.dropWhile_suffix p
      have hlen := hsuf.length_le
      rw [hy] at hlen
      simp at hlen
    · rw [List.dropWhile_cons, if_neg hc]

/-- Both-ends whitespace trim on character lists (Python `str.strip()`). -/
def trimBy (p : Char → Bool) (l : List Char) : List Char :=
  ((l.dropWhile p).reverse.dropWhile p).reverse

theorem trimBy_idem (p : Char → Bool) (l : List Char) :
    trimBy p (trimBy p l) = trimBy p l := by
  have h1 : (l.dropWhile p).dropWhile p = l.dropWhile p := dropWhile_dropWhile p l
  rcases dropWhile_suffix_of p (l.dropWhile p).reverse with ⟨t, ht⟩
  have hpre : l.dropWhile p
      = ((l.dropWhile p).reverse.dropWhile p).reverse ++ t.reverse := by
    have h2 := congrArg List.reverse ht
    simpa using h2.symm
  have hbrev : (((l.dropWhile p).reverse.dropWhile p).reverse).dropWhile p
      = ((l.dropWhile p).reverse.dropWhile p).reverse := by
    apply dropWhile_eq_self_of_append p _ t.reverse
    rw [← hpre]
    exact h1
  unfold trimBy
  rw [hbrev, List.reverse_reverse, dropWhile_dropWhile]

/-- Configuration of a ConstrainedStr subclass (types.py 145-151); the
compiled regex is abstracted as a Boolean predicate on strings (the regex
engine is an external primitive). -/
structure StrConstraints where
  strip_whitespace : Bool
  strict : Bool
  min_length : Option Nat
  max_length : Option Nat
  curtail_length : Option Nat
  regex : Option (String → Bool)

/-- Modelled from the spec: str_validator / strict_str_validator
(pydantic/validators.py, not under src/) — "strict parse to the base
type": a str passes through unchanged; the coercing variant also renders
other scalars as text; everything else fails. -/
def str_validator : Val → Except Err String
  | .str s => .ok s
  | .int n => .ok (toString n)
  | _ => .error .strError

def strict_str_validator : Val → Except Err String
  | .str s => .ok s
  | _ => .error .strError

/-- Python `str.strip()` on the character list of a string. -/
def str_strip (s : String) : String := ⟨trimBy Char.isWhitespace s.data⟩

/-- Modelled from the spec: constr_strip_whitespace (pydantic/validators.py,
not under src/) — "optional whitespace trim". -/
def constr_strip_whitespace (cfg : StrConstraints) (s : String) : String :=
  if cfg.strip_whitespace then str_strip s else s

/-- Modelled from the spec: constr_length_validator (pydantic/validators.py,
not under src/) — "length bounds (min_length, max_length)". -/
def constr_length_validator (cfg : StrConstraints) (s : String) : Except Err String :=
  match cfg.min_length with
  | some m =>
    if s.data.length < m then .error (.strMinLength m)
    else
      match cfg.max_length with
      | some mx => if mx < s.data.length then .error (.strMaxLength mx) else .ok s
      | Option.none => .ok s
  | Option.none =>
    match cfg.max_length with
    | some mx => if mx < s.data.length then .error (.strMaxLength mx) else .ok s
    | Option.none => .ok s

/-- Curtailment step of ConstrainedStr.validate (types.py 162-163):
`if cls.curtail_length and len(value) > cls.curtail_length` — a zero
curtail_length is falsy in Python and disables curtailment. -/
def curtailed (cfg : StrConstraints) (s : String) : String :=
  match cfg.curtail_length with
  | some c => if c ≠ 0 ∧ c < s.data.length then (⟨s.data.take c⟩ : String) else s
  | Option.none => s

/-- Transcription of ConstrainedStr.validate (types.py 160-169): optional
curtailment, then the optional regex check on the curtailed value. -/
def ConstrainedStr.validate (cfg : StrConstraints) (s : String) : Except Err String :=
  match cfg.regex with
  | some r => if r (curtailed cfg s) then .ok (curtailed cfg s) else .error .strRegex
  | Option.none => .ok (curtailed cfg s)

/-- ConstrainedStr.__get_validators__ order (types.py 153-158):
(strict_)str_validator, constr_strip_whitespace, constr_length_validator,
cls.validate. -/
def constrained_str_chain (cfg : StrConstraints) (v : Val) : Except Err String :=
  match (if cfg.strict then strict_str_validator v else str_validator v) with
  | .error e => .error e
  | .ok s0 =>
    match constr_length_validator cfg (constr_strip_whitespace cfg s0) with
    | .error e => .error e
    | .ok s2 => ConstrainedStr.validate cfg s2

/-- Configuration of a ConstrainedInt subclass (types.py 252-258). -/
structure IntConstraints where
  strict : Bool
  gt : Option Int
  ge : Option Int
  lt : Option Int
  le : Option Int
  multiple_of : Option Int

/-- Modelled from the spec: int_validator / strict_int_validator
(pydantic/validators.py, not under src/) — "parse (strict or coercing)":
an int passes through unchanged; the coercing variant also parses numeric
text; everything else fails. -/
def int_validator : Val → Except Err Int
  | .int n => .ok n
  | .str s =>
    match s.toInt? with
    | some n => .ok n
    | Option.none => .error .intError
  | _ => .error .intError

def strict_int_validator : Val → Except Err Int
  | .int n => .ok n
  | _ => .error .intError

/-- Modelled from the spec: number_size_validator (pydantic/validators.py,
not under src/) — numeric bound checks gt, ge, lt, le, applied in order. -/
def check_le (cfg : IntConstraints) (n : Int) : Except Err Int :=
  match cfg.le with
  | some g => if g < n then .error (.numberLe g) else .ok n
  | Option.none => .ok n

def check_lt (cfg : IntConstraints) (n : Int) : Except Err Int :=
  match cfg.lt with
  | some g => if g ≤ n then .error (.numberLt g) else check_le cfg n
  | Option.none => check_le cfg n

def check_ge (cfg : IntConstraints) (n : Int) : Except Err Int :=
  match cfg.ge with
  | some g => if n < g then .error (.numberGe g) else check_lt cfg n
  | Option.none => check_lt cfg n

def number_size_validator (cfg : IntConstraints) (n : Int) : Except Err Int :=
  match cfg.gt with
  | some g => if n ≤ g then .error (.numberGt g) else check_ge cfg n
  | Option.none => check_ge cfg n

/-- Modelled from the spec: number_multiple_validator (pydantic/validators.py,
not under src/) — `value % multiple_of == 0`. -/
def number_multiple_validator (cfg : IntConstraints) (n : Int) : Except Err Int :=
  match cfg.multiple_of with
  | some m => if n % m = 0 then .ok n else .error (.numberMultiple m)
  | Option.none => .ok n

/-- ConstrainedInt.__get_validators__ order (types.py 260-265):
(strict_)int_validator, number_size_validator, number_multiple_validator. -/
def constrained_int_chain (cfg : IntConstraints) (v : Val) : Except Err Int :=
  match (if cfg.strict then strict_int_validator v else int_validator v) with
  | .error e => .error e
  | .ok n =>
    match number_size_validator cfg n with
    | .error e => .error e
    | .ok n1 => number_multiple_validator cfg n1

theorem check_le_ok (cfg : IntConstraints) (n m : Int) (h : check_le cfg n = .ok m) :
    m = n := by
  unfold check_le at h
  split at h
  · split at h
    · cases h
    · injection h with h'
      omega
  · injection h with h'
    omega

theorem check_lt_ok (cfg : IntConstraints) (n m : Int) (h : check_lt cfg n = .ok m) :
    m = n := by
  unfold check_lt at h
  split at h
  · split at h
    · cases h
    · exact check_le_ok cfg n m h
  · exact check_le_ok cfg n m h

theorem check_ge_ok (cfg : IntConstraints) (n m : Int) (h : check_ge cfg n = .ok m) :
    m = n := by
  unfold check_ge at h
  split at h
  · split at h
    · cases h
    · exact check_lt_ok cfg n m h
  · exact check_lt_ok cfg n m h

theorem number_size_ok (cfg : IntConstraints) (n m : Int)
    (h : number_size_validator cfg n = .ok m) : m = n := by
  unfold number_size_validator at h
  split at h
  · split at h
    · cases h
    · exact check_ge_ok cfg n m h
  · exact check_ge_ok cfg n m h

theorem number_multiple_ok (cfg : IntConstraints) (n m : Int)
    (h : number_multiple_validator cfg n = .ok m) : m = n := by
  unfold number_multiple_validator at h
  split at h
  · split at h
    · injection h with h'
      omega
    · cases h
  · injection h with h'
    omega

theorem int_chain_idem (cfg : IntConstraints) (w : Val) (n : Int)
    (h : constrained_int_chain cfg w = .ok n) :
    constrained_int_chain cfg (.int n) = .ok n := by
  unfold constrained_int_chain at h ⊢
  rcases hv : (if cfg.strict then strict_int_validator w else int_validator w) with e | n0
  · simp only [hv] at h
    exact Except.noConfusion h
  · simp only [hv] at h
    rcases hs : number_size_validator cfg n0 with e | n1
    · simp only [hs] at h
      exact Except.noConfusion h
    · simp only [hs] at h
      have hn1 : n1 = n0 := number_size_ok cfg n0 n1 hs
      have hn : n = n1 := number_multiple_ok cfg n1 n h
      subst hn1
      subst hn
      have hv2 : (if cfg.strict then strict_int_validator (Val.int n)
          else int_validator (Val.int n)) = .ok n := by
        cases cfg.strict <;> rfl
      simp only [hv2, hs]
      exact h

theorem str_strip_idem (s : String) : str_strip (str_strip s) = str_strip s := by
  unfold str_strip
  exact congrArg String.mk (trimBy_idem Char.isWhitespace s.data)

theorem constr_length_ok_eq (cfg : StrConstraints) (x y : String)
    (h : constr_length_validator cfg x = .ok y) : y = x := by
  unfold constr_length_validator at h
  repeat' split at h
  all_goals first
    | exact Except.noConfusion h
    | (injection h with h'; exact h'.symm)

theorem constr_length_min (cfg : StrConstraints) (x : String)
    (h : constr_length_validator cfg x = .ok x) :
    ∀ m, cfg.min_length = some m → m ≤ x.data.length := by
  intro m hm
  unfold constr_length_validator at h
  simp only [hm] at h
  split at h
  · exact Except.noConfusion h
  · omega

theorem constr_length_max (cfg : StrConstraints) (x : String)
    (h : constr_length_validator cfg x = .ok x) :
    ∀ mx, cfg.max_length = some mx → x.data.length ≤ mx := by
  intro mx hmx
  unfold constr_length_validator at h
  simp only [hmx] at h
  repeat' split at h
  all_goals first
    | exact Except.noConfusion h
    | omega

theorem constr_length_ok_of (cfg : StrConstraints) (x : String)
    (hmin : ∀ m, cfg.min_length = some m → m ≤ x.data.length)
    (hmax : ∀ mx, cfg.max_length = some mx → x.data.length ≤ mx) :
    constr_length_validator cfg x = .ok x := by
  unfold constr_length_validator
  repeat' split
  all_goals first
    | rfl
    | (exfalso
       rename_i hsome hlt
       first
         | (have hb := hmin _ hsome; omega)
         | (have hb := hmax _ hsome; omega))
    | (exfalso
       rename_i hmsome hnlt hsome hlt
       have := hmax _ hsome
       omega)

theorem curtailed_none_eq (cfg : StrConstraints) (s : String)
    (h : cfg.curtail_length = Option.none) : curtailed cfg s = s := by
  unfold curtailed
  rw [h]

theorem curtailed_some_eq (cfg : StrConstraints) (s : String) (c : Nat)
    (h : cfg.curtail_length = some c) :
    curtailed cfg s
      = if c ≠ 0 ∧ c < s.data.length then (⟨s.data.take c⟩ : String) else s := by
  unfold curtailed
  rw [h]

theorem curtailed_spec (cfg : StrConstraints) (s : String) :
    (curtailed cfg s = s ∧ ∀ c, cfg.curtail_length = some c → c = 0 ∨ s.data.length ≤ c)
  ∨ (∃ c, cfg.curtail_length = some c ∧ c ≠ 0 ∧ c < s.data.length
        ∧ (curtailed cfg s).data = s.data.take c) := by
  rcases hcl : cfg.curtail_length with _ | c
  · left
    refine ⟨curtailed_none_eq cfg s hcl, ?_⟩
    intro c hc
    exact Option.noConfusion hc
  · by_cases hc0 : c ≠ 0 ∧ c < s.data.length
    · right
      refine ⟨c, rfl, hc0.1, hc0.2, ?_⟩
      rw [curtailed_some_eq cfg s c hcl, if_pos hc0]
    · left
      refine ⟨by rw [curtailed_some_eq cfg s c hcl, if_neg hc0], ?_⟩
      intro c' hc'
      injection hc' with hcc
      subst hcc
      by_cases hz : c = 0
      · exact Or.inl hz
      · right
        rcases Decidable.not_and_iff_or_not.mp hc0 with h1 | h2
        · exact absurd hz (by simpa using h1)
        · omega

theorem curtailed_noop (cfg : StrConstraints) (s : String)
    (hc : ∀ c, cfg.curtail_length = some c → c = 0 ∨ s.data.length ≤ c) :
    curtailed cfg s = s := by
  rcases hcl : cfg.curtail_length with _ | c
  · exact curtailed_none_eq cfg s hcl
  · rw [curtailed_some_eq cfg s c hcl, if_neg]
    rintro ⟨h1, h2⟩
    rcases hc c hcl with h0 | hlen
    · exact h1 h0
    · omega

theorem str_validate_none_eq (cfg : StrConstraints) (s : String)
    (h : cfg.regex = Option.none) :
    ConstrainedStr.validate cfg s = .ok (curtailed cfg s) := by
  unfold ConstrainedStr.validate
  rw [h]

theorem str_validate_some_eq (cfg : StrConstraints) (s : String) (r : String → Bool)
    (h : cfg.regex = some r) :
    ConstrainedStr.validate cfg s
      = (if r (curtailed cfg s) then .ok (curtailed cfg s) else .error .strRegex) := by
  unfold ConstrainedStr.validate
  rw [h]

theorem str_validate_ok_iff (cfg : StrConstraints) (s t : String) :
    ConstrainedStr.validate cfg s = .ok t
      ↔ (t = curtailed cfg s ∧ ∀ r, cfg.regex = some r → r (curtailed cfg s) = true) := by
  rcases hr : cfg.regex with _ | r
  · rw [str_validate_none_eq cfg s hr]
    constructor
    · intro h
      injection h with h'
      refine ⟨h'.symm, ?_⟩
      intro r hr'
      exact Option.noConfusion hr'
    · rintro ⟨h1, _⟩
      rw [h1]
  · rw [str_validate_some_eq cfg s r hr]
    constructor
    · intro h
      split at h
      · injection h with h'
        refine ⟨h'.symm, ?_⟩
        intro r' hr'
        injection hr' with hrr
        subst hrr
        assumption
      · exact Except.noConfusion h
    · rintro ⟨h1, h2⟩
      rw [if_pos (h2 r rfl), h1]

theorem constr_strip_false (cfg : StrConstraints) (x : String)
    (h : cfg.strip_whitespace = false) : constr_strip_whitespace cfg x = x := by
  unfold constr_strip_whitespace
  simp [h]

theorem constr_strip_true (cfg : StrConstraints) (x : String)
    (h : cfg.strip_whitespace = true) : constr_strip_whitespace cfg x = str_strip x := by
  unfold constr_strip_whitespace
  simp [h]

theorem constr_strip_idem (cfg : StrConstraints) (x : String) :
    constr_strip_whitespace cfg (constr_strip_whitespace cfg x)
      = constr_strip_whitespace cfg x := by
  cases hsw : cfg.strip_whitespace
  · rw [constr_strip_false cfg _ hsw, constr_strip_false cfg _ hsw]
  · rw [constr_strip_true cfg _ hsw, constr_strip_true cfg _ hsw, str_strip_idem]

/-- Configurations under which re-validating a constrained-str output is a
no-op: curtailment disabled (unset or zero), or curtailment enabled with
whitespace stripping off and any min_length not exceeding curtail_length. -/
def curtail_compatible (cfg : StrConstraints) : Prop :=
  match cfg.curtail_length with
  | Option.none => True
  | some c => c = 0 ∨ (cfg.strip_whitespace = false ∧
      (match cfg.min_length with
       | Option.none => True
       | some m => m ≤ c))

theorem str_chain_idem (cfg : StrConstraints) (w : Val) (s : String)
    (hcompat : curtail_compatible cfg)
    (h : constrained_str_chain cfg w = .ok s) :
    constrained_str_chain cfg (.str s) = .ok s := by
  unfold constrained_str_chain at h ⊢
  rcases hv : (if cfg.strict then strict_str_validator w else str_validator w) with e | s0
  · simp only [hv] at h
    exact Except.noConfusion h
  · simp only [hv] at h
    rcases hl : constr_length_validator cfg (constr_strip_whitespace cfg s0) with e | s2
    · simp only [hl] at h
      exact Except.noConfusion h
    · simp only [hl] at h
      have hs2 : s2 = constr_strip_whitespace cfg s0 :=
        constr_length_ok_eq cfg (constr_strip_whitespace cfg s0) s2 hl
      subst hs2
      rcases (str_validate_ok_iff cfg (constr_strip_whitespace cfg s0) s).mp h with
        ⟨hst, hregex⟩
      have hv2 : (if cfg.strict then strict_str_validator (Val.str s)
          else str_validator (Val.str s)) = .ok s := by
        cases cfg.strict <;> rfl
      simp only [hv2]
      rcases curtailed_spec cfg (constr_strip_whitespace cfg s0) with
        ⟨heq, hcnoop⟩ | ⟨c, hcl, hc0, hclt, htake⟩
      · -- no curtailment happened: s is the stripped, length-checked value
        have hss1 : s = constr_strip_whitespace cfg s0 := by rw [hst, heq]
        have hstrip2 : constr_strip_whitespace cfg s = s := by
          rw [hss1]
          exact constr_strip_idem cfg s0
        have hlen2 : constr_length_validator cfg s = .ok s := by
          rw [hss1]
          exact hl
        rw [hstrip2]
        simp only [hlen2]
        refine (str_validate_ok_iff cfg s s).mpr ⟨?_, ?_⟩
        · have hnoop : curtailed cfg s = s := by
            apply curtailed_noop
            intro c hc
            rcases hcnoop c hc with h0 | hlen
            · exact Or.inl h0
            · right
              rw [hss1]
              exact hlen
          rw [hnoop]
        · intro r hr
          have hnoop : curtailed cfg s = s := by
            apply curtailed_noop
            intro c hc
            rcases hcnoop c hc with h0 | hlen
            · exact Or.inl h0
            · right
              rw [hss1]
              exact hlen
          rw [hnoop, hst]
          exact hregex r hr
      · -- curtailment happened: compatibility forces strip off and min ≤ c
        have hcompat' : cfg.strip_whitespace = false ∧
            (∀ m, cfg.min_length = some m → m ≤ c) := by
          unfold curtail_compatible at hcompat
          rw [hcl] at hcompat
          rcases hcompat with h0 | ⟨hsw, hm⟩
          · exact absurd h0 hc0
          · refine ⟨hsw, ?_⟩
            intro m hm'
            rw [hm'] at hm
            exact hm
        have hslen : s.data.length = c := by
          have := congrArg List.length (hst ▸ htake)
          rw [List.length_take] at this
          omega
        have hstrip2 : constr_strip_whitespace cfg s = s := constr_strip_false cfg s hcompat'.1
        have hnoop : curtailed cfg s = s := by
          apply curtailed_noop
          intro c' hc'
          rw [hcl] at hc'
          injection hc' with hcc
          subst hcc
          omega
        have hlen2 : constr_length_validator cfg s = .ok s := by
          apply constr_length_ok_of
          · intro m hm
            have := hcompat'.2 m hm
            omega
          · intro mx hmx
            have hmax := constr_length_max cfg (constr_strip_whitespace cfg s0) hl mx hmx
            omega
        rw [hstrip2]
        simp only [hlen2]
        refine (str_validate_ok_iff cfg s s).mpr ⟨hnoop.symm, ?_⟩
        intro r hr
        rw [hnoop, hst]
        exact hregex r hr


/-- Configuration exhibiting the claim's failure: min_length=5 with
curtail_length=3. -/
def cfgBadStr : StrConstraints :=
  StrConstraints.mk false false (some 5) Option.none (some 3) Option.none

/-- Configuration exhibiting the strip/curtail interaction: stripping on
with curtail_length=4. -/
def cfgStripCurtail : StrConstraints :=
  StrConstraints.mk true false Option.none Option.none (some 4) Option.none

/-- C9 counterexample: the validator chain of a constrained string type is
not idempotent on its own outputs as claimed.  With min_length=5 and
curtail_length=3 the input "abcdef" passes and is curtailed to "abc", but
re-validating "abc" fails the min-length check.  With stripping on and
curtail_length=4, "ab  cd" yields "ab  " whose re-validation yields "ab",
a different value.  -/
theorem c9_counterexample_revalidation_differs :
    constrained_str_chain cfgBadStr (.str "abcdef") = .ok "abc"
  ∧ constrained_str_chain cfgBadStr (.str "abc") = .error (.strMinLength 5)
  ∧ constrained_str_chain cfgStripCurtail (.str "ab  cd") = .ok "ab  "
  ∧ constrained_str_chain cfgStripCurtail (.str "ab  ") = .ok "ab"
  ∧ ("ab" : String) ≠ "ab  " :=
  ⟨rfl, rfl, rfl, rfl, by decide⟩

/-- C9 amended: the constrained-int validator chain is idempotent on its
own outputs unconditionally; the constrained-str chain is idempotent on
its own outputs provided curtailment is disabled (curtail_length unset or
zero) or cannot interact with the other validators (whitespace stripping
off and min_length, when set, at most curtail_length).  -/
theorem c9_amended_idempotence :
    (∀ (cfg : IntConstraints) (w : Val) (n : Int),
        constrained_int_chain cfg w = .ok n → constrained_int_chain cfg (.int n) = .ok n)
  ∧ (∀ (cfg : StrConstraints) (w : Val) (s : String), curtail_compatible cfg →
        constrained_str_chain cfg w = .ok s → constrained_str_chain cfg (.str s) = .ok s) :=
  ⟨int_chain_idem, str_chain_idem⟩

def cfgIdemInt : IntConstraints :=
  IntConstraints.mk false (some 0) Option.none (some 10) Option.none (some 1)

def cfgIdemStr : StrConstraints :=
  StrConstraints.mk true false (some 1) (some 5) Option.none Option.none

theorem c9_amended_idempotence_witness :
    constrained_int_chain cfgIdemInt (Val.int 4) = .ok 4
  ∧ constrained_str_chain cfgIdemStr (.str "ab") = .ok "ab" :=
  ⟨c9_amended_idempotence.1 cfgIdemInt (Val.int 4) 4 rfl,
   c9_amended_idempotence.2 cfgIdemStr (Val.str " ab ") "ab" (by trivial) rfl⟩

/-! ### Concrete fields for the engine witnesses -/

/-- A validator accepting only ints (like a plain `int` leaf chain on
already-int input). -/
def int_only : Val → Except Err Val := fun v =>
  match v with
  | .int n => .ok (.int n)
  | _ => .error .intError

/-- A validator accepting only strings. -/
def str_only : Val → Except Err Val := fun v =>
  match v with
  | .str s => .ok (.str s)
  | _ => .error .strError

def leafInt : Field := .mk .singleton false [] [] [int_only] [] Option.none

def leafStr : Field := .mk .singleton false [] [] [str_only] [] Option.none

def unionIntStr : Field := .mk .singleton false [] [] [] [leafInt, leafStr] Option.none

def listIntField : Field := .mk .list false [] [] [] [leafInt] Option.none

def seqIntField : Field := .mk .sequence false [] [] [] [leafInt] Option.none

def mapIntStrField : Field := .mk .mapping false [] [] [] [leafInt] (some leafStr)

theorem c1_union_witness :
    (∃ pre s post, unionIntStr.sub_fields = pre ++ s :: post ∧
       (∀ s' ∈ pre, (Field.validate s' (Val.str "x") []).2 ≠ Option.none) ∧
       (Field.validate s (Val.str "x") []).2 = Option.none ∧
       Field.validate_singleton unionIntStr (Val.str "x") []
         = ((Field.validate s (Val.str "x") []).1, Option.none))
  ∨ ((∀ s ∈ unionIntStr.sub_fields, (Field.validate s (Val.str "x") []).2 ≠ Option.none) ∧
     Field.validate_singleton unionIntStr (Val.str "x") []
       = ((Val.str "x"),
          some (.flat (unionIntStr.sub_fields.filterMap
            (fun s => (Field.validate s (Val.str "x") []).2))))) :=
  c1_union_first_success_or_all_errors unionIntStr (Val.str "x") []
    (by simp [unionIntStr, Field.shape])
    (by simp [unionIntStr, Field.sub_fields])

theorem c2_sequence_witness :
    Field.validate_sequence_like listIntField (Val.list [Val.str "a", Val.int 1, Val.str "b"]) []
      = (Val.list [Val.str "a", Val.int 1, Val.str "b"],
         some (.flat ((elem_outcomes listIntField [] [Val.str "a", Val.int 1, Val.str "b"] 0).filterMap
           (fun r => r.2))))
    ∧ (elem_outcomes listIntField [] [Val.str "a", Val.int 1, Val.str "b"] 0).length
        = (3 : Nat)
    ∧ ∀ j : Nat, j < ([Val.str "a", Val.int 1, Val.str "b"] : List Val).length →
        (elem_outcomes listIntField [] [Val.str "a", Val.int 1, Val.str "b"] 0).getD j
            (Val.none, Option.none)
          = Field.validate_singleton listIntField
              (([Val.str "a", Val.int 1, Val.str "b"] : List Val).getD j Val.none)
              ([] ++ [Loc.n j]) :=
  c2_sequence_attempts_all_elements listIntField
    (Val.list [Val.str "a", Val.int 1, Val.str "b"]) []
    [Val.str "a", Val.int 1, Val.str "b"]
    (Or.inl (by simp [listIntField, Field.shape]))
    rfl
    (by simp [elem_outcomes, Field.validate_singleton, Field.validate_each_sub_field,
      Field.validate, apply_validators, leafInt, int_only, listIntField,
      Field.pre_validators, Field.post_validators, Field.validators, Field.sub_fields,
      Field.allow_none, Field.shape])

theorem c3_mapping_witness :
    (∀ v : Val, (∀ es : List (Val × Val), v ≠ Val.dict es) →
       Field.validate_mapping mapIntStrField v [] = (v, some (.wrapper Err.dictError [])))
  ∧ (∀ es : List (Val × Val),
       Field.validate_mapping mapIntStrField (Val.dict es) [] =
         (match es.filterMap (fun kv => ex_err (entry_outcome mapIntStrField leafStr [] kv)) with
          | [] =>
            (Val.dict (((es.filterMap
                (fun kv => ex_ok (entry_outcome mapIntStrField leafStr [] kv)))).foldl
               (fun acc kv => dictInsert acc kv.1 kv.2) []), Option.none)
          | e :: es' => (Val.dict es, some (.flat (e :: es'))))) :=
  c3_mapping_entry_validation mapIntStrField leafStr [] rfl

theorem c8_sequence_witness :
    (∀ ys, Val.tuple [Val.int 1, Val.int 2] = Val.tuple ys →
       Field.validate_sequence_like seqIntField (Val.tuple [Val.int 1, Val.int 2]) []
         = (Val.tuple ((elem_outcomes seqIntField [] [Val.int 1, Val.int 2] 0).map
             (fun r => r.1)), Option.none))
  ∧ (∀ ys, Val.tuple [Val.int 1, Val.int 2] = Val.set ys →
       Field.validate_sequence_like seqIntField (Val.tuple [Val.int 1, Val.int 2]) []
         = (Val.set ((elem_outcomes seqIntField [] [Val.int 1, Val.int 2] 0).map
             (fun r => r.1)), Option.none))
  ∧ (∀ ys, Val.tuple [Val.int 1, Val.int 2] = Val.gen ys →
       Field.validate_sequence_like seqIntField (Val.tuple [Val.int 1, Val.int 2]) []
         = (Val.gen ((elem_outcomes seqIntField [] [Val.int 1, Val.int 2] 0).map
             (fun r => r.1)), Option.none))
  ∧ (∀ ys, Val.tuple [Val.int 1, Val.int 2] = Val.list ys →
       Field.validate_sequence_like seqIntField (Val.tuple [Val.int 1, Val.int 2]) []
         = (Val.list ((elem_outcomes seqIntField [] [Val.int 1, Val.int 2] 0).map
             (fun r => r.1)), Option.none))
  ∧ (∀ ys, Val.tuple [Val.int 1, Val.int 2] = Val.frozenset ys →
       Field.validate_sequence_like seqIntField (Val.tuple [Val.int 1, Val.int 2]) []
         = (Val.list ((elem_outcomes seqIntField [] [Val.int 1, Val.int 2] 0).map
             (fun r => r.1)), Option.none)) :=
  c8_sequence_preserves_container_kind seqIntField (Val.tuple [Val.int 1, Val.int 2]) []
    [Val.int 1, Val.int 2]
    (by simp [seqIntField, Field.shape])
    rfl
    (by simp [elem_outcomes, Field.validate_singleton, Field.validate_each_sub_field,
      Field.validate, apply_validators, leafInt, int_only, seqIntField,
      Field.pre_validators, Field.post_validators, Field.validators, Field.sub_fields,
      Field.allow_none, Field.shape])

end Pydantic
